import Mathlib

/-!
Verification of the cron expression utility in src/src/index.ts.

The TypeScript module works on JavaScript strings and numbers.  The
embedding below represents strings as Lean `String` (processing their
`data : List Char` with structurally recursive helpers so that every
definition evaluates inside the kernel) and JavaScript numbers as `Int`;
every numeric value produced by the module is an integer far below 2^53,
so integer arithmetic models JS number arithmetic exactly, and the result
of `parseInt` is modelled as `Option Int` with `none` playing the role of
`NaN`.
-/

/-- JavaScript whitespace as used by `trim` and the regex class in
`split`, restricted to the ASCII whitespace characters (the inputs of
the module are ordinary cron strings). -/
def isWsChar (c : Char) : Bool :=
  c == ' ' || c == '\t' || c == '\n' || c == '\r' || c.toNat == 11 || c.toNat == 12

/-- Decimal digit test, matching the digit scan of JS `parseInt` with
radix 10. -/
def isDecDigit (c : Char) : Bool :=
  '0' ≤ c && c ≤ '9'

/-- Value of a decimal digit character. -/
def decDigitVal (c : Char) : Nat :=
  c.toNat - 48

/-- Accumulate a digit list into a natural number, most significant
digit first, as the greedy digit scan of `parseInt` does. -/
def digitsToNat (ds : List Char) : Nat :=
  ds.foldl (fun a c => a * 10 + decDigitVal c) 0

/-- The greedy decimal-digit scan of JS `parseInt(s, 10)` after sign
processing: take the longest digit run; no digits at all means `NaN`. -/
def parseDecDigits (cs : List Char) : Option Nat :=
  let ds := cs.takeWhile isDecDigit
  if ds.isEmpty then none else some (digitsToNat ds)

/-- JS `parseInt(s, 10)`: skip leading whitespace, read an optional
sign, then greedily read decimal digits, ignoring any trailing
characters; `none` models the `NaN` result. -/
def jsParseIntL (cs0 : List Char) : Option Int :=
  match cs0.dropWhile isWsChar with
  | '-' :: rest => (parseDecDigits rest).map (fun n => -(n : Int))
  | '+' :: rest => (parseDecDigits rest).map (fun n => (n : Int))
  | cs => (parseDecDigits cs).map (fun n => (n : Int))

/-- String-level wrapper for `jsParseIntL`. -/
def jsParseInt (s : String) : Option Int :=
  jsParseIntL s.data

/-- Hexadecimal digit test, for JS `parseInt` with no radix argument. -/
def isHexDigitChar (c : Char) : Bool :=
  isDecDigit c || ('a' ≤ c && c ≤ 'f') || ('A' ≤ c && c ≤ 'F')

/-- Value of a hexadecimal digit character. -/
def hexDigitVal (c : Char) : Nat :=
  if isDecDigit c then c.toNat - 48
  else if 'a' ≤ c then c.toNat - 87
  else c.toNat - 55

/-- Greedy hexadecimal digit scan of JS `parseInt` in base-16 mode. -/
def parseHexDigits (cs : List Char) : Option Nat :=
  let ds := cs.takeWhile isHexDigitChar
  if ds.isEmpty then none else some (ds.foldl (fun a c => a * 16 + hexDigitVal c) 0)

/-- Magnitude scan of JS `parseInt` called with no radix: a leading
`0x` or `0X` switches to base 16, otherwise base 10. -/
def noRadixMagnitude : List Char → Option Nat
  | '0' :: 'x' :: rest => parseHexDigits rest
  | '0' :: 'X' :: rest => parseHexDigits rest
  | cs => parseDecDigits cs

/-- JS `parseInt(s)` with no radix argument, as used once in
`describeField` for the pluralisation test. -/
def jsParseIntAnyL (cs0 : List Char) : Option Int :=
  match cs0.dropWhile isWsChar with
  | '-' :: rest => (noRadixMagnitude rest).map (fun n => -(n : Int))
  | '+' :: rest => (noRadixMagnitude rest).map (fun n => (n : Int))
  | cs => (noRadixMagnitude cs).map (fun n => (n : Int))

/-- Whether the character list `cs` begins with the pattern `pat`;
models JS `String.startsWith`. -/
def beginsWith : List Char → List Char → Bool
  | _, [] => true
  | [], _ :: _ => false
  | c :: cs, p :: ps => c == p && beginsWith cs ps

/-- JS `String.split` with a single-character separator: the list of
chunks between occurrences of `sep`, keeping empty chunks, never empty
as a list (the empty string yields one empty chunk). -/
def splitOnChar (sep : Char) : List Char → List (List Char)
  | [] => [[]]
  | c :: rest =>
    if c == sep then [] :: splitOnChar sep rest
    else
      match splitOnChar sep rest with
      | t :: ts => (c :: t) :: ts
      | [] => [[c]]

/-- Tokeniser for `expression.trim().split(/\s+/)`: split on runs of
whitespace, dropping leading and trailing runs.  The accumulator holds
the current token reversed.  (On an all-whitespace input JS produces a
single empty token while this produces no token; both token counts
differ from 5 and 6, so `parseCronExpression` is unaffected.) -/
def wsTokensAux : List Char → List Char → List (List Char)
  | [], acc => if acc.isEmpty then [] else [acc.reverse]
  | c :: rest, acc =>
    if isWsChar c then
      if acc.isEmpty then wsTokensAux rest [] else acc.reverse :: wsTokensAux rest []
    else wsTokensAux rest (c :: acc)

/-- The whitespace-split token list of a cron expression string. -/
def splitWS (s : String) : List String :=
  (wsTokensAux s.data []).map String.mk

/-- JS `Array.join(sep)`. -/
def joinSep (sep : String) : List String → String
  | [] => ""
  | [x] => x
  | x :: xs => x ++ sep ++ joinSep sep xs

/-- JS `String.padStart(2, "0")`. -/
def padStart2 (s : String) : String :=
  if s.data.length < 2 then String.mk (List.replicate (2 - s.data.length) '0' ++ s.data) else s

/-- JS `s.charAt(0).toUpperCase() + s.slice(1)`. -/
def capitalizeFirst (s : String) : String :=
  match s.data with
  | [] => ""
  | c :: cs => String.mk (c.toUpper :: cs)

/-- JS array indexing `arr[i]` on an array of strings: an in-range
index yields the element and an out-of-range index yields `undefined`,
modelled as `none`. -/
def jsIndex (arr : List String) (i : Int) : Option String :=
  if h : 0 ≤ i ∧ i.toNat < arr.length then some (arr.get ⟨i.toNat, h.2⟩) else none

/-- ECMAScript `Array.prototype.join` on an array whose elements may
be `undefined`: an `undefined` element converts to the empty string
before the chunks are joined with the separator. -/
def joinUndef (sep : String) (l : List (Option String)) : String :=
  joinSep sep (l.map (fun o => o.getD ""))

/-- The record produced by `parseCronExpression`: the raw field texts,
with `second` present only for the 6-field form. -/
structure ParsedCron where
  second : Option String
  minute : String
  hour : String
  dayOfMonth : String
  month : String
  dayOfWeek : String
deriving DecidableEq

/-- `parseCronExpression` from src/src/index.ts: trim, split on
whitespace, and map 5 or 6 tokens positionally; any other token count
yields no value. -/
def parseCronExpression (expression : String) : Option ParsedCron :=
  match splitWS expression with
  | [a, b, c, d, e] => some ⟨none, a, b, c, d, e⟩
  | [a, b, c, d, e, f] => some ⟨some a, b, c, d, e, f⟩
  | _ => none

/-- Result record of `validateCronField`. -/
structure ValidationResult where
  valid : Bool
  error : Option String
deriving DecidableEq

/-- `validateCronField` from src/src/index.ts.  The dispatch order is
that of the source: wildcard, then step, then range, then list, then
single value.  The step branch checks `isNaN(step) || step <= 0`; the
range branch destructures the first two chunks of `split("-")` (a
missing or `NaN` chunk fails the comparison chain in JS, modelled by
the catch-all match arm); the list branch uses `Array.some` over the
parsed chunks. -/
def validateCronField (value : String) (min max : Int) : ValidationResult :=
  if value = "*" then ⟨true, none⟩
  else if beginsWith value.data ['*', '/'] then
    match jsParseIntL (value.data.drop 2) with
    | none => ⟨false, some "Invalid step value"⟩
    | some step => if step ≤ 0 then ⟨false, some "Invalid step value"⟩ else ⟨true, none⟩
  else if value.data.any (· == '-') then
    match (splitOnChar '-' value.data).map jsParseIntL with
    | some s :: some e :: _ =>
      if s < min ∨ e > max ∨ s > e then
        ⟨false, some ("Range must be " ++ toString min ++ "-" ++ toString max)⟩
      else ⟨true, none⟩
    | _ => ⟨false, some ("Range must be " ++ toString min ++ "-" ++ toString max)⟩
  else if value.data.any (· == ',') then
    if ((splitOnChar ',' value.data).map jsParseIntL).any
        (fun o => match o with | none => true | some n => decide (n < min ∨ n > max)) then
      ⟨false, some ("Values must be " ++ toString min ++ "-" ++ toString max)⟩
    else ⟨true, none⟩
  else
    match jsParseIntL value.data with
    | none => ⟨false, some ("Must be " ++ toString min ++ "-" ++ toString max)⟩
    | some n =>
      if n < min ∨ n > max then ⟨false, some ("Must be " ++ toString min ++ "-" ++ toString max)⟩
      else ⟨true, none⟩

/-- `matchesField` from src/src/index.ts.  In the step branch JS
computes `value % step === 0`; with `step` equal to `NaN` or `0` the
remainder is `NaN` and the test is false, and otherwise the JS
remainder operator on integers is truncated remainder, `Int.tmod`.  In
the range branch a `NaN` bound makes both comparisons false.  In the
list branch `includes` never finds the number among `NaN` chunks. -/
def matchesField (field : String) (value : Int) : Bool :=
  if field = "*" then true
  else if beginsWith field.data ['*', '/'] then
    match jsParseIntL (field.data.drop 2) with
    | none => false
    | some step => if step = 0 then false else decide (value.tmod step = 0)
  else if field.data.any (· == '-') then
    match (splitOnChar '-' field.data).map jsParseIntL with
    | some s :: some e :: _ => decide (s ≤ value) && decide (value ≤ e)
    | _ => false
  else if field.data.any (· == ',') then
    ((splitOnChar ',' field.data).map jsParseIntL).contains (some value)
  else jsParseIntL field.data == some value

/-- The numeric sub-tokens of a field string, branch by branch as the
dispatch of `matchesField` and `validateCronField` reads them. -/
def subTokens (field : String) : List String :=
  if beginsWith field.data ['*', '/'] then [String.mk (field.data.drop 2)]
  else if field.data.any (· == '-') then (splitOnChar '-' field.data).map String.mk
  else if field.data.any (· == ',') then (splitOnChar ',' field.data).map String.mk
  else [field]

/-- The month name table of `describeCron`. -/
def monthNames : List String :=
  ["January", "February", "March", "April", "May", "June", "July", "August",
   "September", "October", "November", "December"]

/-- The day name table of `describeCron`, indexed 0 to 6. -/
def dayNames : List String :=
  ["Sunday", "Monday", "Tuesday", "Wednesday", "Thursday", "Friday", "Saturday"]

/-- `describeField` from src/src/index.ts.  The pluralisation in the
step branch calls `parseInt` with no radix; a `NaN` step fails the
`> 1` test and yields no plural s.  The range branch destructures the
first two chunks of `split("-")`; the unreachable one-chunk and
zero-chunk shapes would interpolate `undefined` in JS. -/
def describeField (value fieldName : String) : String :=
  if value = "*" then "every " ++ fieldName
  else if beginsWith value.data ['*', '/'] then
    let step := String.mk (value.data.drop 2)
    "every " ++ step ++ " " ++ fieldName ++
      (match jsParseIntAnyL step.data with
       | some n => if 1 < n then "s" else ""
       | none => "")
  else if value.data.any (· == '-') then
    match splitOnChar '-' value.data with
    | [] => fieldName ++ "s undefined through undefined"
    | [s] => fieldName ++ "s " ++ String.mk s ++ " through undefined"
    | s :: e :: _ => fieldName ++ "s " ++ String.mk s ++ " through " ++ String.mk e
  else if value.data.any (· == ',') then
    fieldName ++ "s " ++ joinSep ", " ((splitOnChar ',' value.data).map String.mk)
  else fieldName ++ " " ++ value

/-- The day-of-week rendering of `describeCron`: split on commas, map
numeric tokens through the `dayNames` table (an out-of-range index
gives `undefined`, which the subsequent `join` renders as the empty
string), pass non-numeric tokens through, and join with a comma.  The
source repeats this code verbatim in two branches; one definition
serves both. -/
def mapDow (dow : String) : String :=
  joinUndef ", " ((splitOnChar ',' dow.data).map fun d =>
    match jsParseIntL d with
    | none => some (String.mk d)
    | some n => jsIndex dayNames n)

/-- The month rendering of `describeCron`: split on commas, map
numeric tokens through the 1-indexed `monthNames` table (an
out-of-range index gives `undefined`, which the subsequent `join`
renders as the empty string), pass non-numeric tokens through, and
join with a comma. -/
def mapMonth (month : String) : String :=
  joinUndef ", " ((splitOnChar ',' month.data).map fun m =>
    match jsParseIntL m with
    | none => some (String.mk m)
    | some n => jsIndex monthNames (n - 1))

/-- The value the local variable `timePart` of `describeCron` holds
after the second-field statement: a truthy non-wildcard `second`
writes an `at ...` prefix, everything else leaves the variable
empty. -/
def secondPartOf (parsed : ParsedCron) : String :=
  match parsed.second with
  | some s => if s ≠ "" ∧ s ≠ "*" then "at " ++ describeField s "second" else ""
  | none => ""

/-- The final value of the local variable `timePart` of `describeCron`:
the four-way minute and hour case split of the source, in which only
the both-wildcards branch keeps the second-field prefix (the other
three branches overwrite the variable). -/
def timePartOf (parsed : ParsedCron) : String :=
  if parsed.minute = "*" ∧ parsed.hour = "*" then
    if secondPartOf parsed ≠ "" then secondPartOf parsed ++ ", every minute"
    else "every minute"
  else if parsed.minute ≠ "*" ∧ parsed.hour = "*" then
    "at " ++ describeField parsed.minute "minute" ++ " past every hour"
  else if parsed.minute = "*" ∧ parsed.hour ≠ "*" then
    "every minute during " ++ describeField parsed.hour "hour"
  else
    let hourDesc :=
      if parsed.hour.data.any (· == ',') || parsed.hour.data.any (· == '-')
          || parsed.hour.data.any (· == '/') then
        describeField parsed.hour "hour"
      else padStart2 parsed.hour
    let minuteDesc :=
      if parsed.minute.data.any (· == ',') || parsed.minute.data.any (· == '-')
          || parsed.minute.data.any (· == '/') then
        describeField parsed.minute "minute"
      else padStart2 parsed.minute
    "at " ++ hourDesc ++ ":" ++ minuteDesc

/-- The local variable `dayPart` of `describeCron`. -/
def dayPartOf (parsed : ParsedCron) : String :=
  if parsed.dayOfMonth ≠ "*" ∧ parsed.dayOfWeek ≠ "*" then
    "on " ++ describeField parsed.dayOfMonth "day" ++ " and " ++ mapDow parsed.dayOfWeek
  else if parsed.dayOfMonth ≠ "*" then
    "on " ++ describeField parsed.dayOfMonth "day of month"
  else if parsed.dayOfWeek ≠ "*" then
    "on " ++ mapDow parsed.dayOfWeek
  else ""

/-- The local variable `monthPart` of `describeCron`. -/
def monthPartOf (parsed : ParsedCron) : String :=
  if parsed.month ≠ "*" then "in " ++ mapMonth parsed.month else ""

/-- `describeCron` from src/src/index.ts: join the non-empty parts
with spaces (`.filter(p => p)` drops exactly the empty strings) and
capitalise the first character. -/
def describeCron (parsed : ParsedCron) : String :=
  capitalizeFirst (joinSep " "
    ([timePartOf parsed, dayPartOf parsed, monthPartOf parsed].filter (fun p => p != "")))

/-!
Time model for `getNextExecutions`.  The source starts from `new
Date()` and advances by 60000 milliseconds per iteration, reading the
candidate through the `Date` getters of the host timezone.  Adding
whole minutes never changes the sub-minute offset, so an instant is
modelled as a count `t : Int` of whole minutes on a timezone-free
civil timeline (the spec ignores timezones), and one loop iteration is
`t + 1`.  The civil-date conversion below is the standard
days-to-Gregorian-date algorithm, matching the proleptic Gregorian
calendar of JS `Date`.
-/

/-- Convert a day count relative to 1970-01-01 to a Gregorian civil
date `(year, month, day)` with `month` in 1..12, as JS `Date` does. -/
def civilFromDays (z0 : Int) : Int × Int × Int :=
  let z := z0 + 719468
  let era := z.fdiv 146097
  let doe := z - era * 146097
  let yoe := (doe - doe.ediv 1460 + doe.ediv 36524 - doe.ediv 146096).ediv 365
  let y := yoe + era * 400
  let doy := doe - (365 * yoe + yoe.ediv 4 - yoe.ediv 100)
  let mp := (5 * doy + 2).ediv 153
  let d := doy - (153 * mp + 2).ediv 5 + 1
  let m := if mp < 10 then mp + 3 else mp - 9
  (if m ≤ 2 then y + 1 else y, m, d)

/-- `Date.getMinutes` of the instant `t` minutes from the epoch. -/
def getMinutes (t : Int) : Int := t.emod 60

/-- `Date.getHours`. -/
def getHours (t : Int) : Int := (t.emod 1440).ediv 60

/-- `Date.getDate`: the day of the month, 1-based. -/
def getDate (t : Int) : Int := (civilFromDays (t.fdiv 1440)).2.2

/-- `Date.getMonth`: the month, 0-based as in JS (the simulator adds
1 to it). -/
def getMonth (t : Int) : Int := (civilFromDays (t.fdiv 1440)).2.1 - 1

/-- `Date.getDay`: day of week with 0 = Sunday; day 0 of the epoch was
a Thursday. -/
def getDay (t : Int) : Int := (t.fdiv 1440 + 4).emod 7

/-- One candidate test of the simulator loop: the five `matchesField`
calls of `getNextExecutions` (the `second` field is never tested). -/
def cronMatchesAt (parsed : ParsedCron) (t : Int) : Bool :=
  matchesField parsed.minute (getMinutes t) &&
  matchesField parsed.hour (getHours t) &&
  matchesField parsed.dayOfMonth (getDate t) &&
  matchesField parsed.month (getMonth t + 1) &&
  matchesField parsed.dayOfWeek (getDay t)

/-- The loop of `getNextExecutions`: `fuel` counts the remaining
iterations of `i < count * 100` and `need` the remaining matches of
`dates.length < count`; each iteration first advances the candidate by
one minute and collects it if all five fields match. -/
def getNextExecutionsAux (parsed : ParsedCron) : Nat → Nat → Int → List Int
  | 0, _, _ => []
  | _ + 1, 0, _ => []
  | fuel + 1, need + 1, current =>
    let c := current + 1
    if cronMatchesAt parsed c then
      c :: getNextExecutionsAux parsed fuel need c
    else
      getNextExecutionsAux parsed fuel (need + 1) c

/-- `getNextExecutions` from src/src/index.ts, with the starting
instant `start` (the wall clock `new Date()` of the source) passed
explicitly, as the spec directs for determinism. -/
def getNextExecutions (parsed : ParsedCron) (count : Nat) (start : Int) : List Int :=
  getNextExecutionsAux parsed (count * 100) count start

/-- The cron schedule of all wildcards, matching every minute. -/
def allStar : ParsedCron := ⟨none, "*", "*", "*", "*", "*"⟩

/-- The unsatisfiable schedule of the spec: day-of-month 31 in
month 2. -/
def unsatFeb : ParsedCron := ⟨none, "*", "*", "31", "2", "*"⟩

/-- 2024-02-01 00:00 as a minute count: day 19754 of the epoch. -/
def feb2024Start : Int := 19754 * 1440

/-- The identifiers bound by function declarations in
src/src/index.ts. -/
def moduleFunctionNames : List String :=
  ["parseCronExpression", "validateCronField", "describeField", "describeCron",
   "getNextExecutions", "matchesField"]

/-- The identifiers referenced by the final statement of the module,
`export default { encode, decode }`. -/
def defaultExportNames : List String := ["encode", "decode"]

set_option maxRecDepth 100000

/-- Every timestamp collected by the simulator loop lies strictly
after the current instant and within the remaining fuel. -/
theorem getNextExecutionsAux_mem (p : ParsedCron) :
    ∀ (fuel need : Nat) (cur t : Int), t ∈ getNextExecutionsAux p fuel need cur →
      cur + 1 ≤ t ∧ t ≤ cur + fuel := by
  intro fuel
  induction fuel with
  | zero => intro need cur t ht; simp [getNextExecutionsAux] at ht
  | succ n ih =>
    intro need cur t ht
    cases need with
    | zero => simp [getNextExecutionsAux] at ht
    | succ m =>
      cases hb : cronMatchesAt p (cur + 1) with
      | true =>
        simp only [getNextExecutionsAux, hb, if_true, List.mem_cons] at ht
        rcases ht with rfl | ht
        · omega
        · have := ih m (cur + 1) t ht
          omega
      | false =>
        simp only [getNextExecutionsAux, hb, Bool.false_eq_true, if_false] at ht
        have := ih (m + 1) (cur + 1) t ht
        omega

/-- The simulator loop collects at most `need` timestamps. -/
theorem getNextExecutionsAux_length (p : ParsedCron) :
    ∀ (fuel need : Nat) (cur : Int), (getNextExecutionsAux p fuel need cur).length ≤ need := by
  intro fuel
  induction fuel with
  | zero => intro need cur; simp [getNextExecutionsAux]
  | succ n ih =>
    intro need cur
    cases need with
    | zero => simp [getNextExecutionsAux]
    | succ m =>
      cases hb : cronMatchesAt p (cur + 1) with
      | true =>
        simp only [getNextExecutionsAux, hb, if_true, List.length_cons]
        have := ih m (cur + 1)
        omega
      | false =>
        simp only [getNextExecutionsAux, hb, Bool.false_eq_true, if_false]
        exact ih (m + 1) (cur + 1)

/-- The timestamps collected by the simulator loop are strictly
increasing. -/
theorem getNextExecutionsAux_pairwise (p : ParsedCron) :
    ∀ (fuel need : Nat) (cur : Int),
      List.Pairwise (· < ·) (getNextExecutionsAux p fuel need cur) := by
  intro fuel
  induction fuel with
  | zero => intro need cur; simp [getNextExecutionsAux]
  | succ n ih =>
    intro need cur
    cases need with
    | zero => simp [getNextExecutionsAux]
    | succ m =>
      cases hb : cronMatchesAt p (cur + 1) with
      | true =>
        simp only [getNextExecutionsAux, hb, if_true]
        refine List.pairwise_cons.mpr ⟨fun t ht => ?_, ih m (cur + 1)⟩
        have := getNextExecutionsAux_mem p n m (cur + 1) t ht
        omega
      | false =>
        simp only [getNextExecutionsAux, hb, Bool.false_eq_true, if_false]
        exact ih (m + 1) (cur + 1)

/-- A schedule that matches no instant makes the simulator loop return
the empty list. -/
theorem getNextExecutionsAux_nil (p : ParsedCron)
    (hall : ∀ t : Int, cronMatchesAt p t = false) :
    ∀ (fuel need : Nat) (cur : Int), getNextExecutionsAux p fuel need cur = [] := by
  intro fuel
  induction fuel with
  | zero => intro need cur; simp [getNextExecutionsAux]
  | succ n ih =>
    intro need cur
    cases need with
    | zero => simp [getNextExecutionsAux]
    | succ m =>
      simp only [getNextExecutionsAux, hall (cur + 1), Bool.false_eq_true, if_false]
      exact ih (m + 1) (cur + 1)

/-- C4: for every `ParsedCron` and every count, `nextExecutions`
advances the candidate instant at most `count * 100` times (so every
returned timestamp is at most the start plus `count * 100` minutes)
and returns at most `count` matches, and on the unsatisfiable
combination day-of-month 31 with month 2, started on 1 February 2024,
it returns the empty sequence after exhausting the ceiling. -/
theorem nextExecutions_capped :
    (∀ (p : ParsedCron) (count : Nat) (s : Int),
      (getNextExecutions p count s).length ≤ count ∧
      ∀ t ∈ getNextExecutions p count s, t ≤ s + (count * 100 : Nat)) ∧
    getNextExecutions unsatFeb 5 feb2024Start = [] := by
  constructor
  · intro p count s
    refine ⟨getNextExecutionsAux_length p _ _ _, fun t ht => ?_⟩
    have := getNextExecutionsAux_mem p (count * 100) count s t ht
    omega
  · decide

/-- Witness for C4: the all-wildcard schedule with count 1 from
instant 0 returns the single timestamp 1, which obeys the ceiling
bound. -/
theorem nextExecutions_capped_witness : (1 : Int) ≤ 0 + ((1 * 100 : Nat) : Int) :=
  (nextExecutions_capped.1 allStar 1 0).2 1 (by decide)

/-- C8: for every `ParsedCron` and every count, the sequence returned
by `nextExecutions` is strictly increasing, and every returned
timestamp is at least the starting instant plus one minute. -/
theorem nextExecutions_ascending (p : ParsedCron) (count : Nat) (s : Int) :
    List.Pairwise (· < ·) (getNextExecutions p count s) ∧
    ∀ t ∈ getNextExecutions p count s, s + 1 ≤ t := by
  refine ⟨getNextExecutionsAux_pairwise p _ _ _, fun t ht => ?_⟩
  exact (getNextExecutionsAux_mem p (count * 100) count s t ht).1

/-- Witness for C8: the all-wildcard schedule with count 1 from
instant 0 returns the timestamp 1, one minute after the start. -/
theorem nextExecutions_ascending_witness : (0 : Int) + 1 ≤ 1 :=
  (nextExecutions_ascending allStar 1 0).2 1 (by decide)

/-- C1: `parseCronExpression` returns a value exactly when the
whitespace-split token count is 5 or 6; a 5-token input yields a
record with no `second` field and the tokens mapped positionally, and
a 6-token input sets `second` to the first token and maps the
remaining five positionally. -/
theorem parse_token_count (s : String) :
    ((parseCronExpression s).isSome ↔
      (splitWS s).length = 5 ∨ (splitWS s).length = 6) ∧
    (∀ a b c d e, splitWS s = [a, b, c, d, e] →
      parseCronExpression s = some ⟨none, a, b, c, d, e⟩) ∧
    (∀ a b c d e f, splitWS s = [a, b, c, d, e, f] →
      parseCronExpression s = some ⟨some a, b, c, d, e, f⟩) := by
  rcases hl : splitWS s with
    _ | ⟨a, _ | ⟨b, _ | ⟨c, _ | ⟨d, _ | ⟨e, _ | ⟨f, _ | ⟨g, l⟩⟩⟩⟩⟩⟩⟩ <;>
    refine ⟨?_, ?_, ?_⟩ <;>
    simp_all [parseCronExpression]

/-- Witness for C1: a concrete 5-token and a concrete 6-token
expression parse to the expected records. -/
theorem parse_token_count_witness :
    parseCronExpression "0 9 * * 1-5" = some ⟨none, "0", "9", "*", "*", "1-5"⟩ ∧
    parseCronExpression "30 0 9 * * 1-5" = some ⟨some "30", "0", "9", "*", "*", "1-5"⟩ :=
  ⟨(parse_token_count "0 9 * * 1-5").2.1 "0" "9" "*" "*" "1-5" (by decide),
   (parse_token_count "30 0 9 * * 1-5").2.2 "30" "0" "9" "*" "*" "1-5" (by decide)⟩

/-- A string that begins with the two characters of a step field is
not the wildcard string. -/
theorem ne_star_of_step (v : String) (h : beginsWith v.data ['*', '/'] = true) :
    v ≠ "*" := by
  intro he
  subst he
  exact absurd h (by decide)

/-- C6: for every value string starting with the step lead-in,
`validateCronField` ignores `min` and `max` entirely, and reports
valid exactly when the remainder parses to an integer greater than 0;
in particular the step 0 and step -1 inputs are invalid with the
"Invalid step value" error, while a step of 1000 on a 0-59 field is
accepted. -/
theorem validateField_step :
    (∀ (v : String) (mn mx mn2 mx2 : Int), beginsWith v.data ['*', '/'] = true →
      validateCronField v mn mx = validateCronField v mn2 mx2) ∧
    (∀ (v : String) (mn mx : Int), beginsWith v.data ['*', '/'] = true →
      ((validateCronField v mn mx).valid = true ↔
        ∃ n, jsParseIntL (v.data.drop 2) = some n ∧ 0 < n)) ∧
    validateCronField "*/0" 0 59 = ⟨false, some "Invalid step value"⟩ ∧
    validateCronField "*/-1" 0 59 = ⟨false, some "Invalid step value"⟩ ∧
    (validateCronField "*/1000" 0 59).valid = true := by
  refine ⟨?_, ?_, by decide, by decide, by decide⟩
  · intro v mn mx mn2 mx2 h
    have hne := ne_star_of_step v h
    simp only [validateCronField, if_neg hne, h, if_true]
  · intro v mn mx h
    have hne := ne_star_of_step v h
    simp only [validateCronField, if_neg hne, h, if_true]
    cases hj : jsParseIntL (v.data.drop 2) with
    | none => simp
    | some st =>
      by_cases hst : st ≤ 0
      · simp [hst]
      · simp [hst]
        omega

/-- Witness for C6: a concrete step field is valid independently of
the bounds. -/
theorem validateField_step_witness :
    validateCronField "*/7" 0 59 = validateCronField "*/7" 5 10 ∧
    (validateCronField "*/7" 1 12).valid = true :=
  ⟨validateField_step.1 "*/7" 0 59 5 10 (by decide),
   (validateField_step.2.1 "*/7" 1 12 (by decide)).mpr ⟨7, by decide, by decide⟩⟩

/-- C5: every value string that is not the wildcard and does not start
with the step lead-in but contains a dash is treated as a range, even
when it also contains a comma, and is valid exactly when the first two
dash-chunks parse as integers `a` and `b` with `min <= a`, `b <= max`
and `a <= b`; in particular "10-5" on a 0-59 field is invalid, and so
is "10-5,20", which the range branch captures before the list branch. -/
theorem validateField_range :
    (∀ (v : String) (mn mx : Int), v ≠ "*" → beginsWith v.data ['*', '/'] = false →
      v.data.any (· == '-') = true →
      ((validateCronField v mn mx).valid = true ↔
        ∃ a b rest, (splitOnChar '-' v.data).map jsParseIntL = some a :: some b :: rest ∧
          mn ≤ a ∧ b ≤ mx ∧ a ≤ b)) ∧
    validateCronField "10-5" 0 59 = ⟨false, some "Range must be 0-59"⟩ ∧
    validateCronField "10-5,20" 0 59 = ⟨false, some "Range must be 0-59"⟩ := by
  refine ⟨?_, by decide, by decide⟩
  intro v mn mx h1 h2 h3
  simp only [validateCronField, if_neg h1, h2, Bool.false_eq_true, if_false, h3, if_true]
  cases hm : (splitOnChar '-' v.data).map jsParseIntL with
  | nil => simp
  | cons o1 tail =>
    cases o1 with
    | none => simp
    | some a =>
      cases tail with
      | nil => simp
      | cons o2 rest =>
        cases o2 with
        | none => simp
        | some b =>
          by_cases hcmp : a < mn ∨ b > mx ∨ a > b
          · simp [hcmp]
            intro h4 h5
            omega
          · simp [hcmp]
            exact ⟨a, b, ⟨rfl, rfl⟩, by omega, by omega, by omega⟩

/-- Witness for C5: a concrete range containing a comma inside its
second chunk is still dispatched as a range and accepted. -/
theorem validateField_range_witness :
    (validateCronField "1,3-5" 0 59).valid = true :=
  (validateField_range.1 "1,3-5" 0 59 (by decide) (by decide) (by decide)).mpr
    ⟨1, 5, [], by decide, by decide, by decide, by decide⟩

/-- C7: for every step field with a positive parsed step `n`,
`matchesField` accepts a value exactly when the truncated remainder of
the value by `n` is 0, anchored at the absolute value 0 rather than at
the minimum of the field; a day-of-month step of 5 matches
5, 10, 15, 20, 25 and 30 but not 1 or 6. -/
theorem matchesField_step :
    (∀ (field : String) (n value : Int), beginsWith field.data ['*', '/'] = true →
      jsParseIntL (field.data.drop 2) = some n → 0 < n →
      (matchesField field value = true ↔ value.tmod n = 0)) ∧
    matchesField "*/5" 5 = true ∧ matchesField "*/5" 10 = true ∧
    matchesField "*/5" 15 = true ∧ matchesField "*/5" 20 = true ∧
    matchesField "*/5" 25 = true ∧ matchesField "*/5" 30 = true ∧
    matchesField "*/5" 1 = false ∧ matchesField "*/5" 6 = false := by
  refine ⟨?_, by decide, by decide, by decide, by decide, by decide, by decide,
    by decide, by decide⟩
  intro field n value h hj hn
  have hne := ne_star_of_step field h
  have hn0 : ¬ (n = 0) := by omega
  simp only [matchesField, if_neg hne, h, if_true, hj, hn0, if_false, decide_eq_true_eq]

/-- Witness for C7: the step field of 3 matches the value 9. -/
theorem matchesField_step_witness : matchesField "*/3" 9 = true :=
  (matchesField_step.1 "*/3" 3 9 (by decide) (by decide) (by decide)).mpr (by decide)

/-- The character list underlying `String.mk` is the list itself. -/
theorem data_mk (l : List Char) : (String.mk l).data = l := rfl

/-- `splitOnChar` never returns an empty chunk list. -/
theorem splitOnChar_ne_nil (sep : Char) : ∀ cs, splitOnChar sep cs ≠ [] := by
  intro cs
  cases cs with
  | nil => simp [splitOnChar]
  | cons c rest =>
    by_cases h : (c == sep) = true
    · simp [splitOnChar, h]
    · simp only [splitOnChar, h, Bool.false_eq_true, if_false]
      cases hs : splitOnChar sep rest <;> simp

/-- A field other than the wildcard whose numeric sub-tokens all fail
to parse matches no candidate value. -/
theorem malformed_never_matches (field : String) (value : Int) (hstar : field ≠ "*")
    (hall : ∀ t ∈ subTokens field, jsParseInt t = none) :
    matchesField field value = false := by
  by_cases hstep : beginsWith field.data ['*', '/'] = true
  · have h1 : jsParseInt (String.mk (field.data.drop 2)) = none :=
      hall _ (by simp [subTokens, hstep])
    rw [jsParseInt, data_mk] at h1
    simp [matchesField, hstar, hstep, h1]
  · rw [Bool.not_eq_true] at hstep
    by_cases hdash : field.data.any (· == '-') = true
    · obtain ⟨t, ts, hsplit⟩ : ∃ t ts, splitOnChar '-' field.data = t :: ts := by
        cases h : splitOnChar '-' field.data with
        | nil => exact absurd h (splitOnChar_ne_nil '-' field.data)
        | cons t ts => exact ⟨t, ts, rfl⟩
      have h1 : jsParseIntL t = none := by
        have := hall (String.mk t) (by simp [subTokens, hstep, hdash, hsplit])
        rwa [jsParseInt, data_mk] at this
      simp [matchesField, hstar, hstep, hdash, hsplit, h1]
    · rw [Bool.not_eq_true] at hdash
      by_cases hcomma : field.data.any (· == ',') = true
      · have hts : ∀ t ∈ splitOnChar ',' field.data, jsParseIntL t = none := by
          intro t ht
          have := hall (String.mk t) (by
            simp only [subTokens, hstep, hdash, hcomma, Bool.false_eq_true, if_false, if_true]
            exact List.mem_map_of_mem String.mk ht)
          rwa [jsParseInt, data_mk] at this
        simp [matchesField, hstar, hstep, hdash, hcomma]
        intro x hx
        simp [hts x hx]
      · rw [Bool.not_eq_true] at hcomma
        have h1 : jsParseIntL field.data = none := by
          have := hall field (by simp [subTokens, hstep, hdash, hcomma])
          rwa [jsParseInt] at this
        simp [matchesField, hstar, hstep, hdash, hcomma, h1]

/-- A schedule whose minute field is the unparseable token x. -/
def malformedMinute : ParsedCron := ⟨none, "x", "*", "*", "*", "*"⟩

/-- C3 counterexample: the list field "1,x" contains the malformed
sub-token "x", yet `matchesField` accepts the candidate 1 through the
well-formed sub-token "1", so a field merely containing a malformed
sub-token can still match. -/
theorem matchesField_malformed_counterexample :
    jsParseInt "x" = none ∧ matchesField "1,x" 1 = true := by decide

/-- C3 amended: a field other than the wildcard all of whose numeric
sub-tokens fail to parse never matches any candidate value, and a
schedule carrying such a fully malformed field makes `nextExecutions`
return the empty result set rather than an error; but a field that
merely contains one malformed sub-token among well-formed ones can
still match (see the counterexample). -/
theorem matchesField_malformed_amended :
    (∀ (field : String) (value : Int), field ≠ "*" →
      (∀ t ∈ subTokens field, jsParseInt t = none) →
      matchesField field value = false) ∧
    (∀ (count : Nat) (s : Int), getNextExecutions malformedMinute count s = []) := by
  refine ⟨malformed_never_matches, fun count s => ?_⟩
  apply getNextExecutionsAux_nil
  intro t
  have hx : matchesField "x" (getMinutes t) = false :=
    malformed_never_matches "x" (getMinutes t) (by decide) (by decide)
  simp [cronMatchesAt, malformedMinute, hx]

/-- Witness for C3 amended: the fully malformed single-value field "x"
rejects the candidate 0. -/
theorem matchesField_malformed_witness : matchesField "x" 0 = false :=
  matchesField_malformed_amended.1 "x" 0 (by decide) (by decide)

/-- C2 counterexample: describing the parse of "0 9 * * 1-5" yields
"At 09:00 on Monday", which contains neither the lowercase substring
"at 09:00" (the first letter is capitalised) nor any reference to
Friday (the range token "1-5" is truncated by `parseInt` to 1, that
is, Monday alone). -/
theorem describe_weekday_range_counterexample :
    (parseCronExpression "0 9 * * 1-5").map describeCron = some "At 09:00 on Monday" ∧
    ¬ ("at 09:00".data <:+: "At 09:00 on Monday".data) ∧
    ¬ ("Friday".data <:+: "At 09:00 on Monday".data) := by decide

/-- C2 amended: describing the parse of "0 9 * * 1-5" yields exactly
"At 09:00 on Monday": the time appears capitalised as "At 09:00", and
the day fragment references Monday only, because the day-of-week
renderer parses the whole range token "1-5" with `parseInt`, obtaining
1. -/
theorem describe_weekday_range_amended :
    (parseCronExpression "0 9 * * 1-5").map describeCron = some "At 09:00 on Monday" ∧
    "At 09:00".data <:+: "At 09:00 on Monday".data ∧
    "on Monday".data <:+: "At 09:00 on Monday".data ∧
    jsParseInt "1-5" = some 1 := by decide

/-- C9: the claim is right and the code is wrong: the final statement
of the module is `export default { encode, decode }`, yet neither
`encode` nor `decode` is among the functions the module defines, so
the code does not expose the four-function boundary the spec
declares. -/
theorem default_export_mismatch :
    defaultExportNames.all (fun n => !(moduleFunctionNames.contains n)) = true := by decide

/-- C10 counterexample: for the schedule with day-of-month wildcard
and day-of-week 7 the rendered sentence is exactly "Every minute on "
and does not contain the substring "undefined": the out-of-range
lookup produces `undefined`, but `Array.prototype.join` converts an
`undefined` element to the empty string, so nothing of it reaches the
sentence. -/
theorem describe_dow_out_of_range_counterexample :
    describeCron ⟨none, "*", "*", "*", "*", "7"⟩ = "Every minute on " ∧
    ¬ ("undefined".data <:+: "Every minute on ".data) := by decide

/-- C10 amended: a `ParsedCron` whose `dayOfMonth` is the wildcard and
whose `dayOfWeek` is a single token parsing to an integer outside 0..6
drives the renderer past the end of the 7-entry day-name table; the
lookup yields `undefined`, which `Array.prototype.join` converts to
the empty string, so the day list renders empty and the day fragment
is the bare "on " — the out-of-range token is neither mapped to a day
name nor passed through unchanged, and, as the concrete day-of-week 7
schedule shows, the sentence contains no day name, no raw token and no
substring "undefined". -/
theorem describe_dow_join_empty :
    (∀ (p : ParsedCron) (d : List Char) (n : Int),
      p.dayOfMonth = "*" →
      splitOnChar ',' p.dayOfWeek.data = [d] →
      jsParseIntL d = some n →
      ¬ (0 ≤ n ∧ n < 7) →
      jsIndex dayNames n = none ∧ mapDow p.dayOfWeek = "" ∧ dayPartOf p = "on ") ∧
    describeCron ⟨none, "*", "*", "*", "*", "7"⟩ = "Every minute on " ∧
    (∀ name ∈ dayNames, ¬ (name.data <:+: "Every minute on ".data)) ∧
    ¬ ("7".data <:+: "Every minute on ".data) := by
  refine ⟨?_, by decide, by decide, by decide⟩
  intro p d n hdom hsplit hparse hrange
  have hlen : dayNames.length = 7 := by decide
  have hidx : jsIndex dayNames n = none := by
    unfold jsIndex
    rw [dif_neg]
    rw [hlen]
    intro hcon
    exact hrange ⟨hcon.1, by omega⟩
  have hdow : p.dayOfWeek ≠ "*" := by
    intro he
    rw [he] at hsplit
    have hstar : splitOnChar ',' ("*" : String).data = [['*']] := by decide
    rw [hstar] at hsplit
    have hd : d = ['*'] := by simpa using hsplit.symm
    rw [hd] at hparse
    have hnone : jsParseIntL ['*'] = none := by decide
    rw [hnone] at hparse
    exact Option.noConfusion hparse
  have hmap : mapDow p.dayOfWeek = "" := by
    unfold mapDow
    rw [hsplit]
    simp [hparse, hidx, joinUndef, joinSep]
  refine ⟨hidx, hmap, ?_⟩
  unfold dayPartOf
  rw [if_neg (by simp [hdom]), if_neg (by simp [hdom]), if_pos hdow, hmap]
  decide

/-- Witness for C10 amended: the day-of-week 7 schedule indexes past
the table, renders an empty day list, and leaves the bare "on "
fragment. -/
theorem describe_dow_join_empty_witness :
    jsIndex dayNames 7 = none ∧
    mapDow "7" = "" ∧
    dayPartOf ⟨none, "*", "*", "*", "*", "7"⟩ = "on " :=
  describe_dow_join_empty.1 ⟨none, "*", "*", "*", "*", "7"⟩ ['7'] 7 rfl (by decide)
    (by decide) (by decide)
